import Mathlib

open List

/-!
Shallow embedding of the ranking-and-filtering core of `src/script.js`
(the wollama model-catalog browser).

Conventions of the embedding:
* JS `null`/`undefined` optional values become `Option`.
* JS numbers used by the core (`approxMemoryGb`, `min_ram_gb`, `cores`,
  `min_cores`) are only ever compared with `>=`, so they are modelled as `Int`.
* JS strings become `String`; the character-level operations the core uses
  (`toLowerCase`, `trim`, `split(" ")`, `includes`, `join(" ")`) are modelled
  as structural functions on `List Char` below.  `toLowerCase` is modelled as
  ASCII lowercasing, which is what it does on the ASCII data the core compares.
* `Array.prototype.sort` with comparator `(a, b) => b.score - a.score` is a
  stable sort by non-increasing score (ES2019 guarantees stability); a stable
  sort for a total preorder has a unique result, realised here by
  `List.insertionSort` with the relation `scoreGE`.
-/

/-- Hardware profile as produced by `detectHardware` in `src/script.js`
(fields `userAgent`/`platform` are never read by the core and are omitted). -/
structure HardwareProfile where
  os : String
  cores : Option Int
  approxMemoryGb : Option Int
  isAppleSilicon : Bool
  gpu : Option String
deriving DecidableEq, Repr

/-- The `hardware_profile` hint object carried by a catalog record. -/
structure HardwareProfileHint where
  arch : Option String
  min_ram_gb : Option Int
  min_cores : Option Int
deriving DecidableEq, Repr

/-- One catalog entry (`models.json` record) as read by `src/script.js`. -/
structure ModelRecord where
  model_name : String
  display_name : Option String
  provider : String
  purpose : String
  supports_tools : Bool
  recommended_for : Option (List String)
  hardware_profile : Option HardwareProfileHint
  notes : Option String
deriving DecidableEq, Repr

/-- The three user-controlled filter inputs read by `filterAndRender`. -/
structure FilterCriteria where
  search : String
  purpose : String
  tools : String
deriving DecidableEq, Repr

/-- `model.hardware_profile || {}` from `scoreModelForHardware`. -/
def prof (m : ModelRecord) : HardwareProfileHint :=
  m.hardware_profile.getD ⟨none, none, none⟩

/-- ASCII lowercasing of a character list (JS `String.prototype.toLowerCase`
on the ASCII data the core handles). -/
def lower (cs : List Char) : List Char := cs.map Char.toLower

/-- JS `String.prototype.split(" ")`: split on the single space character;
`"".split(" ")` is `[""]`, so the base case is `[[]]`. -/
def splitSp : List Char → List (List Char)
  | [] => [[]]
  | c :: cs =>
    if c = ' ' then [] :: splitSp cs
    else
      match splitSp cs with
      | t :: ts => (c :: t) :: ts
      | [] => [[c]]

/-- Whitespace recognised by JS `String.prototype.trim` (the forms that can
occur in the text inputs the core reads). -/
def jsWs (c : Char) : Bool := c = ' ' || c = '\t' || c = '\n' || c = '\r'

/-- JS `String.prototype.trim`. -/
def trimChars (cs : List Char) : List Char :=
  ((cs.dropWhile jsWs).reverse.dropWhile jsWs).reverse

/-- `need` occurs at the start of `hay` (helper for substring containment). -/
def hasPre : List Char → List Char → Bool
  | [], _ => true
  | _ :: _, [] => false
  | c :: cs, d :: ds => c = d && hasPre cs ds

/-- JS `String.prototype.includes`: `need` occurs contiguously in `hay`
(the empty needle is contained in every string). -/
def containsSub (need : List Char) : List Char → Bool
  | [] => need.isEmpty
  | c :: t => hasPre need (c :: t) || containsSub need t

/-- `String(s).toLowerCase().split(" ")[1] || ""` from the GPU-affinity test:
the second space-delimited token of the lowercased entry, empty when absent. -/
def secondToken (s : String) : List Char := (splitSp (lower s.toList)).getD 1 []

/-- `score += 3` / `score += 2` architecture contributions of
`scoreModelForHardware` (lines 149-150 of `src/script.js`). -/
def archFactor (m : ModelRecord) (h : HardwareProfile) : Int :=
  (if h.isAppleSilicon = true ∧ (prof m).arch = some "arm64" then 3 else 0) +
  (if h.isAppleSilicon = false ∧ (prof m).arch = some "x86_64" then 2 else 0)

/-- RAM contribution of `scoreModelForHardware` (lines 152-155). -/
def ramFactor (m : ModelRecord) (h : HardwareProfile) : Int :=
  match h.approxMemoryGb, (prof m).min_ram_gb with
  | some mem, some req => if req ≤ mem then 3 else -2
  | _, _ => 0

/-- Core-count contribution of `scoreModelForHardware` (lines 157-159). -/
def coresFactor (m : ModelRecord) (h : HardwareProfile) : Int :=
  match h.cores, (prof m).min_cores with
  | some c, some mc => if mc ≤ c then 1 else 0
  | _, _ => 0

/-- GPU-affinity contribution of `scoreModelForHardware` (lines 161-168).
The JS guard `hw.gpu && Array.isArray(model.recommended_for)` treats the
empty GPU string as absent (falsy), hence the explicit empty check. -/
def gpuFactor (m : ModelRecord) (h : HardwareProfile) : Int :=
  match h.gpu, m.recommended_for with
  | some g, some rs =>
    if g = "" then 0
    else if rs.any (fun s => containsSub (secondToken s) (lower g.toList)) then 2
    else 0
  | _, _ => 0

/-- `scoreModelForHardware(model, hw)` from `src/script.js` lines 142-171,
with the sequential `score +=` steps written as a sum of the four factors. -/
def scoreModelForHardware (m : ModelRecord) (hw : Option HardwareProfile) : Int :=
  match hw with
  | none => 0
  | some h => archFactor m h + ramFactor m h + coresFactor m h + gpuFactor m h

/-- `if (purpose) filtered = filtered.filter((m) => m.purpose === purpose)`. -/
def purposeStage (purpose : String) (l : List ModelRecord) : List ModelRecord :=
  if purpose = "" then l else l.filter (fun m => m.purpose == purpose)

/-- `if (tools) { const val = tools === "true"; ... !!m.supports_tools === val }`. -/
def toolsStage (tools : String) (l : List ModelRecord) : List ModelRecord :=
  if tools = "" then l else l.filter (fun m => m.supports_tools == (tools == "true"))

/-- The search haystack of a record:
`[model_name, display_name, provider, notes, ...recommended_for].join(" ").toLowerCase()`
(JS `join` renders the absent `display_name`/`notes` as the empty string). -/
def haystackOf (m : ModelRecord) : List Char :=
  lower (List.intercalate [' ']
    (([m.model_name, m.display_name.getD "", m.provider, m.notes.getD ""] ++
      m.recommended_for.getD []).map String.toList))

/-- The processed search key: `value.toLowerCase().trim()`. -/
def searchKeyOf (search : String) : List Char := trimChars (lower search.toList)

/-- `if (search) filtered = filtered.filter((m) => haystack.includes(search))`. -/
def searchStage (search : String) (l : List ModelRecord) : List ModelRecord :=
  if searchKeyOf search = [] then l
  else l.filter (fun m => containsSub (searchKeyOf search) (haystackOf m))

/-- The filtering pipeline of `filterAndRender` (lines 183-207): purpose,
then tools, then search. -/
def applyFilters (models : List ModelRecord) (crit : FilterCriteria) : List ModelRecord :=
  searchStage crit.search (toolsStage crit.tools (purposeStage crit.purpose models))

/-- The purpose filter as a single conjunctive predicate (true when unset). -/
def purposePred (purpose : String) (m : ModelRecord) : Bool :=
  purpose == "" || m.purpose == purpose

/-- The tools filter as a single conjunctive predicate (true when unset). -/
def toolsPred (tools : String) (m : ModelRecord) : Bool :=
  tools == "" || m.supports_tools == (tools == "true")

/-- The search filter as a single conjunctive predicate (true when unset). -/
def searchPred (search : String) (m : ModelRecord) : Bool :=
  (searchKeyOf search).isEmpty || containsSub (searchKeyOf search) (haystackOf m)

/-- A record paired with its computed score (the `{ model, score }` objects). -/
structure ScoredRecord where
  model : ModelRecord
  score : Int
deriving DecidableEq, Repr

/-- The sort order of the comparator `(a, b) => b.score - a.score`:
`a` may stay before `b` exactly when `b.score ≤ a.score`. -/
def scoreGE (a b : ScoredRecord) : Prop := b.score ≤ a.score

instance : DecidableRel scoreGE := fun a b => inferInstanceAs (Decidable (b.score ≤ a.score))

instance : IsTotal ScoredRecord scoreGE := ⟨fun a b => le_total b.score a.score⟩

instance : IsTrans ScoredRecord scoreGE := ⟨fun _ _ _ h1 h2 => le_trans h2 h1⟩

/-- The filtered catalog with scores attached, still in catalog order
(the `.map` on line 210-214 of `src/script.js`). -/
def scoredList (models : List ModelRecord) (crit : FilterCriteria)
    (hw : Option HardwareProfile) : List ScoredRecord :=
  (applyFilters models crit).map (fun m => ⟨m, scoreModelForHardware m hw⟩)

/-- The ranked result: the stable descending-score sort of the scored list
(`.sort((a, b) => b.score - a.score)`, line 215). -/
def rankedOf (models : List ModelRecord) (crit : FilterCriteria)
    (hw : Option HardwareProfile) : List ScoredRecord :=
  List.insertionSort scoreGE (scoredList models crit hw)

/-- `PAGE_SIZE` from `src/script.js` line 173. -/
def PAGE_SIZE : Nat := 10

/-- `scored[0].score` (0 for the empty result, in which case the rendering
code returns before reading it). -/
def topScoreOf : List ScoredRecord → Int
  | [] => 0
  | top :: _ => top.score

/-- The initial page (`scored.slice(0, PAGE_SIZE)`, lines 236-238), each card
paired with its best-match flag `score >= topScore && score > 0` (line 271). -/
def initialCards (ranked : List ScoredRecord) : List (ScoredRecord × Bool) :=
  match ranked with
  | [] => []
  | top :: rest =>
    ((top :: rest).take PAGE_SIZE).map
      (fun r => (r, decide (top.score ≤ r.score ∧ 0 < r.score)))

/-- One "Show more" batch (`scored.slice(alreadyShown, alreadyShown + PAGE_SIZE)`),
each card paired with its flag `score >= topScore && score > 0 && alreadyShown === 0`
(line 372 of `src/script.js`). -/
def revealBatch (ranked : List ScoredRecord) (alreadyShown : Nat) :
    List (ScoredRecord × Bool) :=
  match ranked with
  | [] => []
  | top :: rest =>
    (((top :: rest).drop alreadyShown).take PAGE_SIZE).map
      (fun r => (r, decide (top.score ≤ r.score ∧ 0 < r.score ∧ alreadyShown = 0)))

/-- The whole revealed card sequence after `k` "Show more" clicks: the DOM
accumulates the initial page and then each batch, `alreadyShown` being the
number of cards already present. -/
def revealedAfter (ranked : List ScoredRecord) : Nat → List (ScoredRecord × Bool)
  | 0 => initialCards ranked
  | k + 1 =>
    revealedAfter ranked k ++ revealBatch ranked (revealedAfter ranked k).length

/-- Number of records revealed initially: `scored.slice(0, PAGE_SIZE).length`. -/
def initialRevealed (total : Nat) : Nat := min PAGE_SIZE total

/-- Revealed count after one more "Show more" click. -/
def revealStep (total n : Nat) : Nat := min (n + PAGE_SIZE) total

/-- Revealed count after `k` clicks. -/
def revealedCount (total : Nat) : Nat → Nat
  | 0 => initialRevealed total
  | k + 1 => revealStep total (revealedCount total k)

/-- Outcome of one `filterAndRender` pass: either the "No models match the
current filters." state (lines 221-224) or the match count with the initial
page of cards. -/
inductive RenderOutcome where
  | noMatches : RenderOutcome
  | results : Nat → List (ScoredRecord × Bool) → RenderOutcome
deriving DecidableEq, Repr

/-- The view-model produced by one `filterAndRender(models, hw)` pass. -/
def filterAndRender (models : List ModelRecord) (crit : FilterCriteria)
    (hw : Option HardwareProfile) : RenderOutcome :=
  match rankedOf models crit hw with
  | [] => .noMatches
  | top :: rest => .results (top :: rest).length (initialCards (top :: rest))

/-- Index-tagged comparison used to state sort stability: indices are carried
along but ignored by the order, exactly as the JS comparator sees only scores. -/
def idxGE (a b : Nat × ScoredRecord) : Prop := b.2.score ≤ a.2.score

instance : DecidableRel idxGE := fun a b => inferInstanceAs (Decidable (b.2.score ≤ a.2.score))

/-- Tag each element with its position, starting at `n`. -/
def withIdx (n : Nat) : List ScoredRecord → List (Nat × ScoredRecord)
  | [] => []
  | a :: t => (n, a) :: withIdx (n + 1) t

/-- The stable sort applied to the position-tagged scored list. -/
def rankedIdx (l : List ScoredRecord) : List (Nat × ScoredRecord) :=
  List.insertionSort idxGE (withIdx 0 l)

/-- Default record used with `List.getD` in statements about list positions. -/
def dummyRecord : ModelRecord := ⟨"", none, "", "", false, none, none, none⟩

/-- Default scored record for `List.getD`. -/
def dummyScored : ScoredRecord := ⟨dummyRecord, 0⟩

/-- Default card for `List.getD`. -/
def dummyCard : ScoredRecord × Bool := (dummyScored, false)

/-- Empty filter criteria: nothing typed in the search box, both selects on
their empty default option. -/
def critEmpty : FilterCriteria := ⟨"", "", ""⟩

/-- Record A of the spec's example scenario: hint `arch: arm64, minRamGb: 8`. -/
def exA : ModelRecord :=
  ⟨"modelA", none, "provA", "general", false, none, some ⟨some "arm64", some 8, none⟩, none⟩

/-- Record B of the spec's example scenario: hint `arch: x86_64, minRamGb: 32`. -/
def exB : ModelRecord :=
  ⟨"modelB", none, "provB", "general", false, none, some ⟨some "x86_64", some 32, none⟩, none⟩

/-- The example hardware profile
`{isAppleSilicon: true, approxMemoryGb: 16, cpuCores: 8}`. -/
def exHw : Option HardwareProfile := some ⟨"macOS", some 8, some 16, true, none⟩

/-- A record that scores 3 (architecture match only) on `exHwC`. -/
def exC : ModelRecord :=
  ⟨"alpha", none, "p", "general", false, none, some ⟨some "arm64", none, none⟩, none⟩

/-- An Apple-silicon profile with all optional capability fields unknown. -/
def exHwC : Option HardwareProfile := some ⟨"macOS", none, none, true, none⟩

/-! ## Theorems -/

-- Helper: each filter stage yields a sublist of its input.
theorem purposeStage_sublist (p : String) (l : List ModelRecord) : purposeStage p l <+ l := by
  unfold purposeStage
  split
  · exact Sublist.refl l
  · exact filter_sublist l

theorem toolsStage_sublist (t : String) (l : List ModelRecord) : toolsStage t l <+ l := by
  unfold toolsStage
  split
  · exact Sublist.refl l
  · exact filter_sublist l

theorem searchStage_sublist (s : String) (l : List ModelRecord) : searchStage s l <+ l := by
  unfold searchStage
  split
  · exact Sublist.refl l
  · exact filter_sublist l

theorem applyFilters_sublist (models : List ModelRecord) (crit : FilterCriteria) :
    applyFilters models crit <+ models :=
  ((searchStage_sublist crit.search _).trans (toolsStage_sublist crit.tools _)).trans
    (purposeStage_sublist crit.purpose models)

/-- C2: on the catalog `[A, B]` with A hinting `arch arm64, minRamGb 8` and B
hinting `arch x86_64, minRamGb 32`, under the profile
`{isAppleSilicon: true, approxMemoryGb: 16, cpuCores: 8}`, A scores 6, B scores
−2, the ranked output is `[A, B]`, and only A carries the best-match flag. -/
theorem example_scenario_two_records :
    scoreModelForHardware exA exHw = 6
    ∧ scoreModelForHardware exB exHw = -2
    ∧ rankedOf [exA, exB] critEmpty exHw = [⟨exA, 6⟩, ⟨exB, -2⟩]
    ∧ initialCards (rankedOf [exA, exB] critEmpty exHw)
        = [(⟨exA, 6⟩, true), (⟨exB, -2⟩, false)] := by
  decide

/-- C9: an empty catalog (as after a failed catalog load) yields, for every
filter criteria and hardware profile, the empty ranked result and the
"no matches" render outcome; the core is total, so nothing crashes. -/
theorem empty_catalog_no_matches (crit : FilterCriteria) (hw : Option HardwareProfile) :
    rankedOf [] crit hw = [] ∧ filterAndRender [] crit hw = RenderOutcome.noMatches := by
  have h1 : applyFilters [] crit = [] := by
    have := applyFilters_sublist [] crit
    exact sublist_nil.mp this
  have h2 : rankedOf [] crit hw = [] := by
    simp [rankedOf, scoredList, h1, insertionSort]
  exact ⟨h2, by simp [filterAndRender, h2]⟩

-- Helper: bounds for each scoring factor.
theorem archFactor_bounds (m : ModelRecord) (h : HardwareProfile) :
    0 ≤ archFactor m h ∧ archFactor m h ≤ 3 := by
  unfold archFactor
  cases hb : h.isAppleSilicon <;> simp [hb] <;> split_ifs <;> omega

theorem ramFactor_bounds (m : ModelRecord) (h : HardwareProfile) :
    -2 ≤ ramFactor m h ∧ ramFactor m h ≤ 3 := by
  unfold ramFactor
  rcases h.approxMemoryGb with _ | mem <;> rcases (prof m).min_ram_gb with _ | req <;>
    simp <;> split_ifs <;> omega

theorem coresFactor_bounds (m : ModelRecord) (h : HardwareProfile) :
    0 ≤ coresFactor m h ∧ coresFactor m h ≤ 1 := by
  unfold coresFactor
  rcases h.cores with _ | c <;> rcases (prof m).min_cores with _ | mc <;>
    simp <;> split_ifs <;> omega

theorem gpuFactor_bounds (m : ModelRecord) (h : HardwareProfile) :
    0 ≤ gpuFactor m h ∧ gpuFactor m h ≤ 2 := by
  unfold gpuFactor
  rcases h.gpu with _ | g <;> rcases m.recommended_for with _ | rs <;>
    simp <;> split_ifs <;> omega

/-- C10: for every record and hardware profile the score lies in the closed
interval [−2, 9]: the only penalty is −2, the bonuses 3 + 3 + 1 + 2 cannot
exceed 9 because the two architecture bonuses are mutually exclusive. -/
theorem score_range_bounds (m : ModelRecord) (hw : Option HardwareProfile) :
    -2 ≤ scoreModelForHardware m hw ∧ scoreModelForHardware m hw ≤ 9 := by
  cases hw with
  | none => simp [scoreModelForHardware]
  | some h =>
    obtain ⟨a1, a2⟩ := archFactor_bounds m h
    obtain ⟨r1, r2⟩ := ramFactor_bounds m h
    obtain ⟨c1, c2⟩ := coresFactor_bounds m h
    obtain ⟨g1, g2⟩ := gpuFactor_bounds m h
    simp only [scoreModelForHardware]
    omega

/-- C8: scoring is a total function: it returns 0 when the hardware profile
is entirely absent, and the absence of any optional input — `approxMemoryGb`,
`cpuCores`, `gpuDescriptor`, `recommended_for`, the whole hardware-profile
hint, or any single hint field — makes the corresponding factor contribute
zero (being a Lean function, `scoreModelForHardware` cannot crash). -/
theorem score_total_absent_fields_zero (m : ModelRecord) (os name prov purp : String)
    (co mem : Option Int) (ap tl : Bool) (g disp notes : Option String)
    (rf : Option (List String)) (arch : Option String) (mr mc : Option Int) :
    scoreModelForHardware m none = 0
    ∧ ramFactor m ⟨os, co, none, ap, g⟩ = 0
    ∧ coresFactor m ⟨os, none, mem, ap, g⟩ = 0
    ∧ gpuFactor m ⟨os, co, mem, ap, none⟩ = 0
    ∧ gpuFactor ⟨name, disp, prov, purp, tl, none, some ⟨arch, mr, mc⟩, notes⟩ ⟨os, co, mem, ap, g⟩ = 0
    ∧ archFactor ⟨name, disp, prov, purp, tl, rf, none, notes⟩ ⟨os, co, mem, ap, g⟩ = 0
    ∧ ramFactor ⟨name, disp, prov, purp, tl, rf, none, notes⟩ ⟨os, co, mem, ap, g⟩ = 0
    ∧ coresFactor ⟨name, disp, prov, purp, tl, rf, none, notes⟩ ⟨os, co, mem, ap, g⟩ = 0
    ∧ archFactor ⟨name, disp, prov, purp, tl, rf, some ⟨none, mr, mc⟩, notes⟩ ⟨os, co, mem, ap, g⟩ = 0
    ∧ ramFactor ⟨name, disp, prov, purp, tl, rf, some ⟨arch, none, mc⟩, notes⟩ ⟨os, co, mem, ap, g⟩ = 0
    ∧ coresFactor ⟨name, disp, prov, purp, tl, rf, some ⟨arch, mr, none⟩, notes⟩ ⟨os, co, mem, ap, g⟩ = 0 := by
  refine ⟨rfl, ?_, ?_, ?_, ?_, ?_, ?_, ?_, ?_, ?_, ?_⟩
  · cases (prof m).min_ram_gb <;> rfl
  · cases (prof m).min_cores <;> rfl
  · cases m.recommended_for <;> rfl
  · cases g <;> rfl
  · simp [archFactor, prof]
  · cases mem <;> rfl
  · cases co <;> rfl
  · simp [archFactor, prof]
  · cases mem <;> rfl
  · cases co <;> rfl

/-- C4: with every other field fixed, for a record whose hint has `minRamGb`
present, moving `approxMemoryGb` from any value strictly below the requirement
to any value at or above it raises the score by exactly 5 (the −2 penalty is
replaced by the +3 bonus, and no other factor reads the memory field). -/
theorem ram_effect_plus_five (name prov purp : String) (disp notes : Option String)
    (tl : Bool) (rf : Option (List String)) (arch : Option String) (mc : Option Int)
    (os : String) (co : Option Int) (ap : Bool) (g : Option String) (req lo hi : Int)
    (hlo : lo < req) (hhi : req ≤ hi) :
    scoreModelForHardware ⟨name, disp, prov, purp, tl, rf, some ⟨arch, some req, mc⟩, notes⟩
        (some ⟨os, co, some hi, ap, g⟩)
      = scoreModelForHardware ⟨name, disp, prov, purp, tl, rf, some ⟨arch, some req, mc⟩, notes⟩
        (some ⟨os, co, some lo, ap, g⟩) + 5 := by
  have hram1 : ramFactor ⟨name, disp, prov, purp, tl, rf, some ⟨arch, some req, mc⟩, notes⟩
      ⟨os, co, some hi, ap, g⟩ = 3 := by
    simp [ramFactor, prof, hhi]
  have hram2 : ramFactor ⟨name, disp, prov, purp, tl, rf, some ⟨arch, some req, mc⟩, notes⟩
      ⟨os, co, some lo, ap, g⟩ = -2 := by
    simp only [ramFactor, prof, Option.getD_some]
    rw [if_neg (by omega)]
  have harch : archFactor ⟨name, disp, prov, purp, tl, rf, some ⟨arch, some req, mc⟩, notes⟩
      ⟨os, co, some hi, ap, g⟩
      = archFactor ⟨name, disp, prov, purp, tl, rf, some ⟨arch, some req, mc⟩, notes⟩
      ⟨os, co, some lo, ap, g⟩ := rfl
  have hcores : coresFactor ⟨name, disp, prov, purp, tl, rf, some ⟨arch, some req, mc⟩, notes⟩
      ⟨os, co, some hi, ap, g⟩
      = coresFactor ⟨name, disp, prov, purp, tl, rf, some ⟨arch, some req, mc⟩, notes⟩
      ⟨os, co, some lo, ap, g⟩ := rfl
  have hgpu : gpuFactor ⟨name, disp, prov, purp, tl, rf, some ⟨arch, some req, mc⟩, notes⟩
      ⟨os, co, some hi, ap, g⟩
      = gpuFactor ⟨name, disp, prov, purp, tl, rf, some ⟨arch, some req, mc⟩, notes⟩
      ⟨os, co, some lo, ap, g⟩ := rfl
  simp only [scoreModelForHardware, hram1, hram2, harch, hcores, hgpu]
  omega

/-- Witness for C4 at `minRamGb = 8`, memory 4 → 16. -/
theorem ram_effect_plus_five_witness :
    scoreModelForHardware ⟨"m", none, "p", "general", false, none, some ⟨none, some 8, none⟩, none⟩
        (some ⟨"Linux", none, some 16, false, none⟩)
      = scoreModelForHardware ⟨"m", none, "p", "general", false, none, some ⟨none, some 8, none⟩, none⟩
        (some ⟨"Linux", none, some 4, false, none⟩) + 5 :=
  ram_effect_plus_five "m" "p" "general" none none false none none none "Linux" none false none
    8 4 16 (by decide) (by decide)

-- Helper: closed form of the revealed count.
theorem revealedCount_closed (total k : Nat) :
    revealedCount total k = min (PAGE_SIZE * (k + 1)) total := by
  induction k with
  | zero => rfl
  | succ k ih =>
    simp only [revealedCount, revealStep, ih, PAGE_SIZE]
    omega

-- Helper: the number of cards in the DOM equals the revealed-count model.
theorem length_revealedAfter (ranked : List ScoredRecord) (k : Nat) :
    (revealedAfter ranked k).length = revealedCount ranked.length k := by
  induction k with
  | zero =>
    cases ranked with
    | nil => rfl
    | cons top rest =>
      simp [revealedAfter, initialCards, revealedCount, initialRevealed, length_take]
  | succ k ih =>
    cases hr : ranked with
    | nil =>
      subst hr
      simp [revealedAfter, revealBatch, revealedCount, revealStep, ih, initialRevealed,
        revealedCount_closed]
    | cons top rest =>
      subst hr
      have hle : revealedCount (top :: rest).length k ≤ (top :: rest).length := by
        rw [revealedCount_closed]; omega
      simp only [revealedAfter, length_append, ih, revealBatch, length_map, length_take,
        length_drop, revealedCount, revealStep, PAGE_SIZE] at *
      omega

/-- C7: the revealed count starts at `min(pageSize, totalCount)` with page
size 10, each reveal step advances it to `min(revealedCount + pageSize,
totalCount)`, it never exceeds `totalCount`, revealing `totalCount` times
certainly exposes exactly `totalCount` records, and one more reveal at full
exposure is a no-op. -/
theorem pagination_reveal_properties (models : List ModelRecord) (crit : FilterCriteria)
    (hw : Option HardwareProfile) (k total : Nat) :
    PAGE_SIZE = 10
    ∧ (revealedAfter (rankedOf models crit hw) k).length
        = revealedCount (rankedOf models crit hw).length k
    ∧ revealedCount total 0 = min PAGE_SIZE total
    ∧ revealedCount total (k + 1) = min (revealedCount total k + PAGE_SIZE) total
    ∧ revealedCount total k ≤ total
    ∧ revealedCount total total = total
    ∧ revealStep total total = total := by
  refine ⟨rfl, length_revealedAfter _ _, rfl, rfl, ?_, ?_, ?_⟩
  · rw [revealedCount_closed]; omega
  · rw [revealedCount_closed]; simp only [PAGE_SIZE]; omega
  · simp only [revealStep, PAGE_SIZE]; omega

-- Helper: each conditional filter stage is the filter of its conjunctive predicate.
theorem purposeStage_eq_filter (p : String) (l : List ModelRecord) :
    purposeStage p l = l.filter (purposePred p) := by
  by_cases h : p = ""
  · subst h
    have hall : ∀ a ∈ l, purposePred "" a = true := fun a _ => by simp [purposePred]
    simp [purposeStage, filter_eq_self.mpr hall]
  · have hb : (p == "") = false := beq_eq_false_iff_ne.mpr h
    rw [purposeStage, if_neg h]
    exact filter_congr fun m _ => by simp [purposePred, hb]

theorem toolsStage_eq_filter (t : String) (l : List ModelRecord) :
    toolsStage t l = l.filter (toolsPred t) := by
  by_cases h : t = ""
  · subst h
    have hall : ∀ a ∈ l, toolsPred "" a = true := fun a _ => by simp [toolsPred]
    simp [toolsStage, filter_eq_self.mpr hall]
  · have hb : (t == "") = false := beq_eq_false_iff_ne.mpr h
    rw [toolsStage, if_neg h]
    exact filter_congr fun m _ => by simp [toolsPred, hb]

theorem searchStage_eq_filter (s : String) (l : List ModelRecord) :
    searchStage s l = l.filter (searchPred s) := by
  by_cases h : searchKeyOf s = []
  · have hall : ∀ a ∈ l, searchPred s a = true := fun a _ => by simp [searchPred, h]
    simp [searchStage, h, filter_eq_self.mpr hall]
  · have hb : (searchKeyOf s).isEmpty = false := by
      cases hk : searchKeyOf s with
      | nil => exact absurd hk h
      | cons c t => rfl
    rw [searchStage, if_neg h]
    exact filter_congr fun m _ => by simp [searchPred, hb]

/-- C6: the purpose, tools, and search filters applied in any of the six
orders yield the same sequence; the pipeline equals one filter by the
conjunction of the three predicates; and an empty criterion imposes no
constraint (its stage is the identity). -/
theorem filters_commute_conjunctive (models : List ModelRecord) (crit : FilterCriteria) :
    (applyFilters models crit
        = toolsStage crit.tools (searchStage crit.search (purposeStage crit.purpose models)))
    ∧ (applyFilters models crit
        = searchStage crit.search (purposeStage crit.purpose (toolsStage crit.tools models)))
    ∧ (applyFilters models crit
        = purposeStage crit.purpose (searchStage crit.search (toolsStage crit.tools models)))
    ∧ (applyFilters models crit
        = toolsStage crit.tools (purposeStage crit.purpose (searchStage crit.search models)))
    ∧ (applyFilters models crit
        = purposeStage crit.purpose (toolsStage crit.tools (searchStage crit.search models)))
    ∧ (applyFilters models crit = models.filter
        (fun m => purposePred crit.purpose m && toolsPred crit.tools m && searchPred crit.search m))
    ∧ purposeStage "" models = models
    ∧ toolsStage "" models = models
    ∧ searchStage "" models = models := by
  obtain ⟨s, p, t⟩ := crit
  have hk : searchKeyOf "" = [] := by decide
  simp only [applyFilters, purposeStage_eq_filter, toolsStage_eq_filter, searchStage_eq_filter,
    filter_filter]
  refine ⟨?_, ?_, ?_, ?_, ?_, ?_, by simp [purposePred], by simp [toolsPred],
    by simp [searchPred, hk]⟩ <;>
    exact filter_congr fun m _ => by
      cases purposePred p m <;> cases toolsPred t m <;> cases searchPred s m <;> rfl

-- Helper: the Boolean word-start test agrees with the prefix relation.
theorem hasPre_iff (need hay : List Char) : hasPre need hay = true ↔ need <+: hay := by
  induction need generalizing hay with
  | nil => simp [hasPre]
  | cons c cs ih =>
    cases hay with
    | nil => simp [hasPre]
    | cons d ds => simp [hasPre, ih, List.cons_prefix_cons]

-- Helper: the Boolean containment test agrees with the infix relation.
theorem containsSub_iff (need hay : List Char) : containsSub need hay = true ↔ need <:+: hay := by
  induction hay with
  | nil => simp [containsSub, List.isEmpty_iff, List.infix_nil]
  | cons c t ih =>
    rw [containsSub]
    simp [Bool.or_eq_true, hasPre_iff, ih, List.infix_cons_iff]

/-- C5: with the GPU descriptor present (non-null and, per the JS truthiness
guard, non-empty) and `recommended_for` a non-empty list, the GPU-affinity
contribution is exactly 2 when some entry's second space-delimited token
(empty for a single-word entry), lower-cased, occurs as a substring of the
lower-cased descriptor, and exactly 0 otherwise — never more than 2 however
many entries match. -/
theorem gpu_affinity_characterization (name prov purp : String) (disp notes : Option String)
    (tl : Bool) (hint : Option HardwareProfileHint) (os : String) (co mem : Option Int)
    (ap : Bool) (g : String) (rs : List String) (hg : g ≠ "") (hrs : rs ≠ []) :
    (gpuFactor ⟨name, disp, prov, purp, tl, some rs, hint, notes⟩ ⟨os, co, mem, ap, some g⟩ = 2
      ↔ ∃ s ∈ rs, secondToken s <:+: lower g.toList)
    ∧ (gpuFactor ⟨name, disp, prov, purp, tl, some rs, hint, notes⟩ ⟨os, co, mem, ap, some g⟩ = 2
      ∨ gpuFactor ⟨name, disp, prov, purp, tl, some rs, hint, notes⟩ ⟨os, co, mem, ap, some g⟩ = 0) := by
  have key : (rs.any (fun s => containsSub (secondToken s) (lower g.toList)) = true)
      ↔ ∃ s ∈ rs, secondToken s <:+: lower g.toList := by
    rw [List.any_eq_true]
    exact ⟨fun ⟨s, hs, hc⟩ => ⟨s, hs, (containsSub_iff _ _).mp hc⟩,
      fun ⟨s, hs, hc⟩ => ⟨s, hs, (containsSub_iff _ _).mpr hc⟩⟩
  have hred : gpuFactor ⟨name, disp, prov, purp, tl, some rs, hint, notes⟩
      ⟨os, co, mem, ap, some g⟩
      = if rs.any (fun s => containsSub (secondToken s) (lower g.toList)) then 2 else 0 := by
    simp [gpuFactor, hg]
  rw [hred]
  cases hb : rs.any (fun s => containsSub (secondToken s) (lower g.toList)) with
  | false =>
    have hne : ¬ ∃ s ∈ rs, secondToken s <:+: lower g.toList := by
      rw [← key, hb]
      simp
    rw [if_neg (by simp : ¬ (false = true))]
    exact ⟨⟨fun h2 => absurd h2 (by decide), fun hx => absurd hx hne⟩, Or.inr rfl⟩
  | true =>
    rw [if_pos rfl]
    exact ⟨⟨fun _ => key.mp hb, fun _ => rfl⟩, Or.inl rfl⟩

/-- Witness for C5: descriptor "nvidia rtx 3060" against the single entry
"RTX 3060 12GB", whose second token "3060" does occur. -/
theorem gpu_affinity_characterization_witness :
    (gpuFactor ⟨"g", none, "p", "general", false, some ["RTX 3060 12GB"], none, none⟩
        ⟨"Windows", none, none, false, some "nvidia rtx 3060"⟩ = 2
      ↔ ∃ s ∈ ["RTX 3060 12GB"], secondToken s <:+: lower "nvidia rtx 3060".toList)
    ∧ (gpuFactor ⟨"g", none, "p", "general", false, some ["RTX 3060 12GB"], none, none⟩
        ⟨"Windows", none, none, false, some "nvidia rtx 3060"⟩ = 2
      ∨ gpuFactor ⟨"g", none, "p", "general", false, some ["RTX 3060 12GB"], none, none⟩
        ⟨"Windows", none, none, false, some "nvidia rtx 3060"⟩ = 0) :=
  gpu_affinity_characterization "g" "p" "general" none none false none "Windows" none none
    false "nvidia rtx 3060" ["RTX 3060 12GB"] (by decide) (by decide)

-- Helper: stripping the position tags gives back the original list.
theorem withIdx_map_snd (n : Nat) (l : List ScoredRecord) :
    (withIdx n l).map Prod.snd = l := by
  induction l generalizing n with
  | nil => rfl
  | cons a t ih => simp [withIdx, ih]

-- Helper: the element at position i, with its tag, is a member of the tagged list.
theorem withIdx_getD_mem (l : List ScoredRecord) (d : ScoredRecord) (n i : Nat)
    (h : i < l.length) : (n + i, l.getD i d) ∈ withIdx n l := by
  induction l generalizing n i with
  | nil => simp at h
  | cons a t ih =>
    cases i with
    | zero => simp [withIdx]
    | succ i =>
      have e : n + (i + 1) = (n + 1) + i := by omega
      rw [getD_cons_succ, e]
      exact mem_cons_of_mem _ (ih (n + 1) i (Nat.lt_of_succ_lt_succ h))

-- Helper: two positions in order form a sublist of the tagged list.
theorem withIdx_pair_sublist (l : List ScoredRecord) (d : ScoredRecord) (n i j : Nat)
    (hij : i < j) (hj : j < l.length) :
    [(n + i, l.getD i d), (n + j, l.getD j d)] <+ withIdx n l := by
  induction l generalizing n i j with
  | nil => simp at hj
  | cons a t ih =>
    cases i with
    | zero =>
      cases j with
      | zero => omega
      | succ j =>
        rw [getD_cons_zero, getD_cons_succ, Nat.add_zero]
        have e : n + (j + 1) = (n + 1) + j := by omega
        rw [e]
        exact Sublist.cons₂ _ (singleton_sublist.mpr
          (withIdx_getD_mem t d (n + 1) j (Nat.lt_of_succ_lt_succ hj)))
    | succ i =>
      cases j with
      | zero => omega
      | succ j =>
        rw [getD_cons_succ, getD_cons_succ]
        have e1 : n + (i + 1) = (n + 1) + i := by omega
        have e2 : n + (j + 1) = (n + 1) + j := by omega
        rw [e1, e2]
        exact Sublist.cons _ (ih (n + 1) i j (by omega) (Nat.lt_of_succ_lt_succ hj))

/-- C3: the ranking is a stable descending sort: whenever positions `i < j`
of the filtered, scored sequence hold equal scores, the pair, tagged with its
positions, is still in that order in the sorted tagged list, whose untagged
projection is exactly the ranked output; the filtered sequence is itself a
sublist of the catalog, so catalog relative order is what is preserved. -/
theorem sort_stable_on_equal_scores (models : List ModelRecord) (crit : FilterCriteria)
    (hw : Option HardwareProfile) (i j : Nat) (hij : i < j)
    (hj : j < (scoredList models crit hw).length)
    (heq : ((scoredList models crit hw).getD i dummyScored).score
         = ((scoredList models crit hw).getD j dummyScored).score) :
    [(i, (scoredList models crit hw).getD i dummyScored),
     (j, (scoredList models crit hw).getD j dummyScored)]
        <+ rankedIdx (scoredList models crit hw)
    ∧ (rankedIdx (scoredList models crit hw)).map Prod.snd = rankedOf models crit hw
    ∧ applyFilters models crit <+ models := by
  refine ⟨?_, ?_, applyFilters_sublist models crit⟩
  · have hpair := withIdx_pair_sublist (scoredList models crit hw) dummyScored 0 i j hij hj
    rw [Nat.zero_add, Nat.zero_add] at hpair
    rw [rankedIdx]
    exact pair_sublist_insertionSort (le_of_eq heq.symm) hpair
  · rw [rankedIdx,
      map_insertionSort (r := idxGE) (s := scoreGE) Prod.snd (withIdx 0 (scoredList models crit hw))
        (fun a _ b _ => Iff.rfl),
      withIdx_map_snd]
    rfl

/-- Witness for C3: two distinct records that both score 0 under an absent
hardware profile keep their catalog order. -/
theorem sort_stable_on_equal_scores_witness :
    [(0, (scoredList [exA, exB] critEmpty none).getD 0 dummyScored),
     (1, (scoredList [exA, exB] critEmpty none).getD 1 dummyScored)]
        <+ rankedIdx (scoredList [exA, exB] critEmpty none)
    ∧ (rankedIdx (scoredList [exA, exB] critEmpty none)).map Prod.snd
        = rankedOf [exA, exB] critEmpty none
    ∧ applyFilters [exA, exB] critEmpty <+ [exA, exB] :=
  sort_stable_on_equal_scores [exA, exB] critEmpty none 0 1 (by decide) (by decide) (by decide)

-- Helper: the ranked result is sorted by non-increasing score.
theorem sorted_rankedOf (models : List ModelRecord) (crit : FilterCriteria)
    (hw : Option HardwareProfile) : Sorted scoreGE (rankedOf models crit hw) :=
  sorted_insertionSort scoreGE _

-- Helper: the head score of the ranked result bounds every score in it.
theorem le_topScoreOf (models : List ModelRecord) (crit : FilterCriteria)
    (hw : Option HardwareProfile) :
    ∀ c ∈ rankedOf models crit hw, c.score ≤ topScoreOf (rankedOf models crit hw) := by
  intro c hc
  cases hr : rankedOf models crit hw with
  | nil => rw [hr] at hc; simp at hc
  | cons top rest =>
    rw [hr] at hc
    have hs := sorted_rankedOf models crit hw
    rw [hr] at hs
    rcases mem_cons.mp hc with rfl | hm
    · exact le_refl _
    · exact rel_of_sorted_cons hs _ hm

-- Helper: everything revealed after the initial page carries flag false.
theorem revealedAfter_decomp (ranked : List ScoredRecord) (k : Nat) :
    ∃ rest, revealedAfter ranked k = initialCards ranked ++ rest
      ∧ ∀ c ∈ rest, c.2 = false := by
  induction k with
  | zero => exact ⟨[], by simp [revealedAfter], by simp⟩
  | succ k ih =>
    obtain ⟨rest, heqq, hflags⟩ := ih
    refine ⟨rest ++ revealBatch ranked (revealedAfter ranked k).length, ?_, ?_⟩
    · rw [revealedAfter, heqq, append_assoc]
    · intro c hc
      rcases mem_append.mp hc with h | h
      · exact hflags c h
      · cases hr : ranked with
        | nil =>
          rw [hr] at h
          simp [revealBatch] at h
        | cons top rest' =>
          rw [hr] at h heqq
          have hn : (revealedAfter (top :: rest') k).length ≠ 0 := by
            rw [heqq]
            simp only [length_append, initialCards, length_map, length_take, PAGE_SIZE]
            simp
          simp only [revealBatch, mem_map] at h
          obtain ⟨r, hrmem, rfl⟩ := h
          simp only [decide_eq_false_iff_not, not_and]
          intro _ _ h0
          exact hn h0
  
/-- C1 counterexample: with a catalog of 11 identical records all scoring the
positive maximum, the record revealed by the first "Show more" click has the
maximum score yet carries no best-match flag, so the flag is not set on all
maximal-score records of the whole revealed sequence. -/
theorem bestMatch_flag_reveal_counterexample :
    0 < topScoreOf (rankedOf (List.replicate 11 exC) critEmpty exHwC)
    ∧ (revealedAfter (rankedOf (List.replicate 11 exC) critEmpty exHwC) 1).length = 11
    ∧ ((revealedAfter (rankedOf (List.replicate 11 exC) critEmpty exHwC) 1).getD 10
        dummyCard).1.score
        = topScoreOf (rankedOf (List.replicate 11 exC) critEmpty exHwC)
    ∧ ((revealedAfter (rankedOf (List.replicate 11 exC) critEmpty exHwC) 1).getD 10
        dummyCard).2 = false := by
  decide

/-- C1 (amended): on every render pass, a card of the initial page is flagged
exactly when its score equals the maximum (head) score of the ranked result
and that score is strictly positive — hence no flag anywhere when the maximum
is ≤ 0 or the result is empty — while cards revealed by later "Show more"
batches are never flagged; the head score is indeed the maximum. -/
theorem bestMatch_flag_characterization (models : List ModelRecord) (crit : FilterCriteria)
    (hw : Option HardwareProfile) (k : Nat) :
    (∀ c ∈ initialCards (rankedOf models crit hw),
      c.2 = true ↔ (c.1.score = topScoreOf (rankedOf models crit hw) ∧ 0 < c.1.score))
    ∧ (∀ c ∈ (revealedAfter (rankedOf models crit hw) k).drop
          (initialCards (rankedOf models crit hw)).length, c.2 = false)
    ∧ (∀ c ∈ rankedOf models crit hw, c.score ≤ topScoreOf (rankedOf models crit hw)) := by
  refine ⟨?_, ?_, le_topScoreOf models crit hw⟩
  · intro c hc
    cases hr : rankedOf models crit hw with
    | nil =>
      rw [hr] at hc
      simp [initialCards] at hc
    | cons top rest =>
      rw [hr] at hc
      simp only [initialCards, mem_map] at hc
      obtain ⟨r, hrmem, rfl⟩ := hc
      have hmem : r ∈ rankedOf models crit hw := by
        rw [hr]
        exact mem_of_mem_take hrmem
      have hle : r.score ≤ top.score := by
        have h2 := le_topScoreOf models crit hw r hmem
        rwa [hr] at h2
      simp only [decide_eq_true_eq, topScoreOf]
      constructor
      · rintro ⟨h1, h2⟩
        exact ⟨le_antisymm hle h1, h2⟩
      · rintro ⟨h1, h2⟩
        exact ⟨le_of_eq h1.symm, h2⟩
  · intro c hc
    obtain ⟨rest, heqq, hflags⟩ := revealedAfter_decomp (rankedOf models crit hw) k
    rw [heqq, drop_left] at hc
    exact hflags c hc

/-- Witness for C1: in the two-record example scenario the flagged card of
the initial page has the positive maximum score. -/
theorem bestMatch_flag_characterization_witness :
    ((⟨exA, 6⟩ : ScoredRecord), true).2 = true
      ↔ (((⟨exA, 6⟩ : ScoredRecord), true).1.score
            = topScoreOf (rankedOf [exA, exB] critEmpty exHw)
          ∧ 0 < ((⟨exA, 6⟩ : ScoredRecord), true).1.score) :=
  (bestMatch_flag_characterization [exA, exB] critEmpty exHw 0).1 (⟨exA, 6⟩, true) (by decide)
